import Mathlib

/-
Shallow embedding of the marketplace core of the NFT-Marketplace-LLM
repository:

* `contracts/NFTMarket.sol` — the item ledger (create / sale / relist /
  cancel), its counters, its on-chain views and its events;
* `pages/nft/[id].js`, function `fetchItemHistories` — the client-side
  history reconstructor that merges the four event streams.

Modelling conventions:

* Addresses are natural numbers; `0` is the zero address ("none" sentinel).
* `uint256` values are `Nat`.  No arithmetic in the contract can overflow
  2^256 on the reachable inputs considered here (counters and ids only grow
  by 1 per call), so `Nat` is faithful.
* Solidity mappings are total functions with the zero struct as default,
  exactly as in the EVM storage model.
* Every mutating entry point returns `Except MarketError MarketState`:
  `.error` models a revert (no state is returned, matching the all-or-nothing
  transaction semantics), `.ok` the committed post-state.
* Ether flow is modelled with the contract's own balance (`ethBalance`):
  a payable call credits `msg.value` at entry, and an outgoing `transfer`
  reverts when its value exceeds the contract's balance, exactly as in the
  EVM.  The credits `transfer` pays to user addresses are also recorded in
  a cumulative `balances` map so that monetary effects are observable.
  `IERC721.transferFrom` custody calls are modelled as the always-
  succeeding external collaborator.  `block.timestamp` is passed in as a
  `now` parameter.
* The OpenZeppelin `Counters.decrement` underflow guard
  (`require(value > 0)`) is part of the translated `relistMarketItem`.
-/

namespace NFTMarket

/-- Addresses as naturals; `0` plays the role of `address(0)`. -/
abbrev Address := Nat

/-- Translation of `struct MarketItem` (NFTMarket.sol lines 27-37).
`dataHash` (`bytes32`) is modelled as a `Nat` digest. -/
structure MarketItem where
  itemId : Nat
  nftContract : Address
  tokenId : Nat
  seller : Address
  owner : Address
  price : Nat
  dataHash : Nat
  licenseType : String
  encryptedDataUrl : String
  deriving Repr, DecidableEq

/-- Zero-initialised struct: the default value of every mapping slot. -/
def zeroItem : MarketItem :=
  { itemId := 0, nftContract := 0, tokenId := 0, seller := 0, owner := 0,
    price := 0, dataHash := 0, licenseType := "", encryptedDataUrl := "" }

/-- Payload of `event MarketItemCreated` (lines 41-51).  Note: this event
has no timestamp field in the source. -/
structure CreatedEv where
  itemId : Nat
  nftContract : Address
  tokenId : Nat
  seller : Address
  owner : Address
  price : Nat
  dataHash : Nat
  licenseType : String
  encryptedDataUrl : String
  deriving Repr, DecidableEq

/-- Payload of `event MarketItemSold` (lines 54-62). -/
structure SoldEv where
  itemId : Nat
  nftContract : Address
  tokenId : Nat
  seller : Address
  buyer : Address
  price : Nat
  timestamp : Nat
  deriving Repr, DecidableEq

/-- Payload of `event MarketItemRelisted` (lines 64-71). -/
structure RelistedEv where
  itemId : Nat
  nftContract : Address
  tokenId : Nat
  seller : Address
  price : Nat
  timestamp : Nat
  deriving Repr, DecidableEq

/-- Payload of `event MarketItemCanceled` (lines 73-79). -/
structure CanceledEv where
  itemId : Nat
  nftContract : Address
  tokenId : Nat
  seller : Address
  timestamp : Nat
  deriving Repr, DecidableEq

/-- One entry of the append-only event log, a typed sum of the four kinds. -/
inductive Event where
  | created : CreatedEv → Event
  | sold : SoldEv → Event
  | relisted : RelistedEv → Event
  | canceled : CanceledEv → Event
  deriving Repr, DecidableEq

/-- Timestamp field of an event, when the event kind has one.
`MarketItemCreated` carries none (the reconstructor reads it as null). -/
def eventTs? : Event → Option Nat
  | .created _ => none
  | .sold e => some e.timestamp
  | .relisted e => some e.timestamp
  | .canceled e => some e.timestamp

/-- Identifier an event is keyed by (the indexed `itemId` topic). -/
def eventItemId : Event → Nat
  | .created e => e.itemId
  | .sold e => e.itemId
  | .relisted e => e.itemId
  | .canceled e => e.itemId

/-- Error taxonomy of the contract's `require` statements, using the spec's
names.  `counterUnderflow` is the OpenZeppelin `Counters.decrement` guard
reached by `relistMarketItem` when `_itemsSold` is zero.
`insufficientBalance` is the EVM revert of an outgoing `transfer` whose
value exceeds the contract's ether balance, reached by `createMarketSale`
when the escrowed fees cannot cover `payable(owner).transfer(listingPrice)`
(line 140). -/
inductive MarketError where
  | invalidPrice
  | feeMismatch
  | priceMismatch
  | notOwner
  | notSeller
  | alreadySold
  | counterUnderflow
  | insufficientBalance
  deriving Repr, DecidableEq

/-- Contract storage and account state: the two counters, the deployer
(`owner` field of the contract), the id-to-item mapping, the contract's own
ether balance (the escrowed listing fees), the cumulative ether credits
paid out to user addresses by `transfer`, and the append-only event log. -/
structure MarketState where
  itemIds : Nat
  itemsSold : Nat
  marketOwner : Address
  items : Nat → MarketItem
  ethBalance : Nat
  balances : Address → Nat
  log : List Event

/-- Fixed listing fee, `uint256 listingPrice = 0.1 ether` (line 20), in wei. -/
def listingPrice : Nat := 100000000000000000

/-- State right after the constructor ran with `deployer` as `msg.sender`. -/
def initState (deployer : Address) : MarketState :=
  { itemIds := 0, itemsSold := 0, marketOwner := deployer,
    items := fun _ => zeroItem, ethBalance := 0, balances := fun _ => 0,
    log := [] }

/-- Translation of `createMarketItem` (lines 86-125): checks `price > 0` and
`msg.value == listingPrice`, increments `_itemIds`, stores the record with
`owner = address(0)` and `seller = msg.sender`, and emits
`MarketItemCreated` (with no timestamp).  The paid fee (`msg.value`) stays
escrowed in the contract, so its ether balance grows by `msg.value`. -/
def createMarketItem (s : MarketState) (sender : Address) (msgValue : Nat)
    (nftContract : Address) (tokenId price dataHash : Nat)
    (licenseType encryptedDataUrl : String) : Except MarketError MarketState :=
  if price = 0 then .error .invalidPrice
  else if msgValue ≠ listingPrice then .error .feeMismatch
  else
    let itemId := s.itemIds + 1
    let item : MarketItem :=
      { itemId := itemId, nftContract := nftContract, tokenId := tokenId,
        seller := sender, owner := 0, price := price, dataHash := dataHash,
        licenseType := licenseType, encryptedDataUrl := encryptedDataUrl }
    .ok { s with
      itemIds := itemId,
      items := fun j => if j = itemId then item else s.items j,
      ethBalance := s.ethBalance + msgValue,
      log := s.log ++ [Event.created
        { itemId := itemId, nftContract := nftContract, tokenId := tokenId,
          seller := sender, owner := 0, price := price, dataHash := dataHash,
          licenseType := licenseType, encryptedDataUrl := encryptedDataUrl }] }

/-- Translation of `createMarketSale` (lines 128-152).  The only `require`
is `msg.value == price`, where `price` is read from the mapping slot — there
is no existence check, so an unknown `itemId` reads the zero struct.  Ether
flow: `msg.value` is credited to the contract at entry and paid straight
back out to the stored seller (line 136), a transfer that can never lack
funds; `payable(owner).transfer(listingPrice)` (line 140) then pays the fee
out of the contract's pre-call balance and reverts the whole call when that
balance is below `listingPrice`.  On success the slot's `owner` becomes the
buyer, `_itemsSold` is incremented and `MarketItemSold` is emitted with
`block.timestamp` (`now`).  `nftContract` is a caller-supplied argument
used only for the custody call and the event, exactly as in the source. -/
def createMarketSale (s : MarketState) (sender : Address) (msgValue now : Nat)
    (nftContract : Address) (itemId : Nat) : Except MarketError MarketState :=
  let price := (s.items itemId).price
  let tokenId := (s.items itemId).tokenId
  if msgValue ≠ price then .error .priceMismatch
  else if s.ethBalance < listingPrice then .error .insufficientBalance
  else
    let seller := (s.items itemId).seller
    .ok { s with
      items := fun j => if j = itemId
        then { s.items itemId with owner := sender } else s.items j,
      itemsSold := s.itemsSold + 1,
      ethBalance := s.ethBalance - listingPrice,
      balances := fun a =>
        s.balances a + (if a = seller then msgValue else 0)
          + (if a = s.marketOwner then listingPrice else 0),
      log := s.log ++ [Event.sold
        { itemId := itemId, nftContract := nftContract, tokenId := tokenId,
          seller := seller, buyer := sender, price := price,
          timestamp := now }] }

/-- Translation of `relistMarketItem` (lines 155-185): requires the caller
to be the stored `owner`, `price > 0`, `msg.value == listingPrice`, and —
via `_itemsSold.decrement()` — `_itemsSold > 0`; then sets
`seller = msg.sender`, `owner = address(0)`, the new price, and emits
`MarketItemRelisted` with `block.timestamp`.  The paid fee stays escrowed,
growing the contract's ether balance by `msg.value`. -/
def relistMarketItem (s : MarketState) (sender : Address) (msgValue now : Nat)
    (itemId price : Nat) : Except MarketError MarketState :=
  let item := s.items itemId
  if item.owner ≠ sender then .error .notOwner
  else if price = 0 then .error .invalidPrice
  else if msgValue ≠ listingPrice then .error .feeMismatch
  else if s.itemsSold = 0 then .error .counterUnderflow
  else .ok { s with
    items := fun j => if j = itemId
      then { item with seller := sender, owner := 0, price := price }
      else s.items j,
    itemsSold := s.itemsSold - 1,
    ethBalance := s.ethBalance + msgValue,
    log := s.log ++ [Event.relisted
      { itemId := itemId, nftContract := item.nftContract,
        tokenId := item.tokenId, seller := sender, price := price,
        timestamp := now }] }

/-- Translation of `cancelListing` (lines 189-205): requires
`owner == address(0)` and `seller == msg.sender`, then emits
`MarketItemCanceled` with `block.timestamp` and sets `owner` to the stored
seller (the withdrawal marker). -/
def cancelListing (s : MarketState) (sender now : Nat) (itemId : Nat) :
    Except MarketError MarketState :=
  let item := s.items itemId
  if item.owner ≠ 0 then .error .alreadySold
  else if item.seller ≠ sender then .error .notSeller
  else .ok { s with
    items := fun j => if j = itemId
      then { item with owner := item.seller } else s.items j,
    log := s.log ++ [Event.canceled
      { itemId := itemId, nftContract := item.nftContract,
        tokenId := item.tokenId, seller := sender, timestamp := now }] }

/-- Translation of `getMarketItem` / `fetchMarketItem`: a raw mapping read. -/
def getMarketItem (s : MarketState) (itemId : Nat) : MarketItem :=
  s.items itemId

/-- Loop condition of both passes of `fetchMarketItems` (lines 219 and 230):
`owner == address(0) && itemId != 0`. -/
def activeSlot (it : MarketItem) : Bool :=
  it.owner == 0 && it.itemId != 0

/-- First pass of `fetchMarketItems` (lines 213-222): count the matching
slots among ids `1 .. _itemIds.current()`. -/
def unsoldCount (s : MarketState) : Nat :=
  (List.range' 1 s.itemIds).countP fun i => activeSlot (s.items i)

/-- Second pass of `fetchMarketItems` (lines 225-236): walk the same id
range again and collect the matching records in ascending id order. -/
def fetchMarketItems (s : MarketState) : List MarketItem :=
  ((List.range' 1 s.itemIds).filter fun i => activeSlot (s.items i)).map s.items

/-- Translation of `verifyOwnership` (lines 279-281): a bare equality test
between the stored `owner` of the slot and the queried address. -/
def verifyOwnership (s : MarketState) (itemId : Nat) (user : Address) : Bool :=
  (s.items itemId).owner == user

/-- Translation of `getListingPrice` (lines 284-286). -/
def getListingPrice (_ : MarketState) : Nat := listingPrice

/-- One external call to a mutating entry point, with its `msg.sender`,
`msg.value` and `block.timestamp` environment data. -/
inductive Op where
  | create (sender : Address) (msgValue : Nat) (nftContract : Address)
      (tokenId price dataHash : Nat) (licenseType encryptedDataUrl : String)
  | sale (sender : Address) (msgValue now : Nat) (nftContract : Address)
      (itemId : Nat)
  | relist (sender : Address) (msgValue now itemId price : Nat)
  | cancel (sender now itemId : Nat)

/-- Caller of an operation (`msg.sender`). -/
def Op.sender : Op → Address
  | .create a .. => a
  | .sale a .. => a
  | .relist a .. => a
  | .cancel a .. => a

/-- Whether an operation is a call to `createMarketItem`. -/
def Op.isCreate : Op → Bool
  | .create .. => true
  | _ => false

/-- Timestamp that `block.timestamp` would supply if the operation commits.
`createMarketItem` never reads it and its event carries none. -/
def Op.ts? : Op → Option Nat
  | .create .. => none
  | .sale _ _ now _ _ => some now
  | .relist _ _ now _ _ => some now
  | .cancel _ now _ => some now

/-- Dispatch one call to the corresponding entry point. -/
def step (s : MarketState) : Op → Except MarketError MarketState
  | .create a v c t p d l u => createMarketItem s a v c t p d l u
  | .sale a v now c i => createMarketSale s a v now c i
  | .relist a v now i p => relistMarketItem s a v now i p
  | .cancel a now i => cancelListing s a now i

/-- Committed state after a call: the post-state on success, the unchanged
pre-state on revert. -/
def apply (s : MarketState) (op : Op) : MarketState :=
  match step s op with
  | .ok s' => s'
  | .error _ => s

/-- Committed state after a sequence of calls. -/
def run (s : MarketState) (ops : List Op) : MarketState :=
  ops.foldl apply s

/-- States the deployed contract can be in: the constructor's state, closed
under arbitrary calls.  The EVM guarantees `msg.sender` (and the deployer)
is never the zero address, which is the only environment fact used. -/
inductive Reachable : MarketState → Prop where
  | init (d : Address) (hd : d ≠ 0) : Reachable (initState d)
  | step (s : MarketState) (op : Op) (hs : Reachable s)
      (hop : op.sender ≠ 0) : Reachable (apply s op)

/-- Identifiers handed out by successful `createMarketItem` calls along a
call sequence, in call order (each successful create allocates
`_itemIds.current()` after the increment). -/
def issuedFrom (s : MarketState) : List Op → List Nat
  | [] => []
  | op :: ops =>
    match step s op with
    | .ok s' => (if op.isCreate then [s'.itemIds] else []) ++ issuedFrom s' ops
    | .error _ => issuedFrom s ops

/-
History reconstructor, translated from `fetchItemHistories`
(pages/nft/[id].js lines 106-164).  The four `queryFilter` calls each scan
the immutable log for events of one kind whose indexed `itemId` matches;
the hits are tagged with a `type` discriminator and pushed in the order
Created, Sold, Relisted, Canceled; finally `events.sort((a, b) =>
a.timestamp - b.timestamp)` sorts them.  JavaScript's sort is stable and
its comparator coerces a null timestamp to the number 0, which the
insertion sort below reproduces.  `price` is kept as the raw wei amount
(the source formats it to an ether string for display). -/

/-- One entry of the merged timeline.  Optional fields are the keys the
source only pushes for some kinds: `seller` only for SOLD, `price` absent
for CANCELED, `timestamp` null when the event lacks the field. -/
structure TaggedEvent where
  type : String
  itemId : Nat
  tokenId : Nat
  actor : Address
  seller : Option Address
  price : Option Nat
  timestamp : Option Nat
  deriving Repr, DecidableEq

/-- Filter `MarketItemCreated(idBN)` over the log ([id].js line 110). -/
def queryCreated (log : List Event) (itemId : Nat) : List CreatedEv :=
  log.filterMap fun e => match e with
    | .created c => if c.itemId = itemId then some c else none
    | _ => none

/-- Filter `MarketItemSold(idBN)` over the log ([id].js line 111). -/
def querySold (log : List Event) (itemId : Nat) : List SoldEv :=
  log.filterMap fun e => match e with
    | .sold c => if c.itemId = itemId then some c else none
    | _ => none

/-- Filter `MarketItemRelisted(idBN)` over the log ([id].js line 112). -/
def queryRelisted (log : List Event) (itemId : Nat) : List RelistedEv :=
  log.filterMap fun e => match e with
    | .relisted c => if c.itemId = itemId then some c else none
    | _ => none

/-- Filter `MarketItemCanceled(idBN)` over the log ([id].js line 113). -/
def queryCanceled (log : List Event) (itemId : Nat) : List CanceledEv :=
  log.filterMap fun e => match e with
    | .canceled c => if c.itemId = itemId then some c else none
    | _ => none

/-- Tagging of a Created hit ([id].js lines 118-127); the event has no
timestamp field, so `e.args.timestamp ? ... : null` yields null. -/
def tagCreated (e : CreatedEv) : TaggedEvent :=
  { type := "LISTED", itemId := e.itemId, tokenId := e.tokenId,
    actor := e.seller, seller := none, price := some e.price,
    timestamp := none }

/-- Tagging of a Sold hit ([id].js lines 129-139). -/
def tagSold (e : SoldEv) : TaggedEvent :=
  { type := "SOLD", itemId := e.itemId, tokenId := e.tokenId,
    actor := e.buyer, seller := some e.seller, price := some e.price,
    timestamp := some e.timestamp }

/-- Tagging of a Relisted hit ([id].js lines 141-150). -/
def tagRelisted (e : RelistedEv) : TaggedEvent :=
  { type := "RELISTED", itemId := e.itemId, tokenId := e.tokenId,
    actor := e.seller, seller := none, price := some e.price,
    timestamp := some e.timestamp }

/-- Tagging of a Canceled hit ([id].js lines 152-160). -/
def tagCanceled (e : CanceledEv) : TaggedEvent :=
  { type := "CANCELED", itemId := e.itemId, tokenId := e.tokenId,
    actor := e.seller, seller := none, price := none,
    timestamp := some e.timestamp }

/-- Value the comparator `a.timestamp - b.timestamp` uses for an entry:
JavaScript coerces null to 0 in arithmetic. -/
def effTs (t : TaggedEvent) : Nat := t.timestamp.getD 0

/-- Comparator order of the sort: entry `a` stays before `b` when the
comparator is non-positive. -/
def tsLe (a b : TaggedEvent) : Bool := effTs a ≤ effTs b

/-- Stable insertion used to model the stable `Array.prototype.sort`. -/
def insertTs (a : TaggedEvent) : List TaggedEvent → List TaggedEvent
  | [] => [a]
  | b :: l => if tsLe a b then a :: b :: l else b :: insertTs a l

/-- Stable sort by timestamp, the meaning of `events.sort((a, b) =>
a.timestamp - b.timestamp)` under the ECMAScript stable-sort contract. -/
def sortTs : List TaggedEvent → List TaggedEvent
  | [] => []
  | a :: l => insertTs a (sortTs l)

/-- Translation of `fetchItemHistories`: the four kind-filtered queries,
tagged, concatenated in kind order, then sorted by timestamp. -/
def fetchItemHistories (log : List Event) (itemId : Nat) : List TaggedEvent :=
  sortTs ((queryCreated log itemId).map tagCreated
    ++ (querySold log itemId).map tagSold
    ++ (queryRelisted log itemId).map tagRelisted
    ++ (queryCanceled log itemId).map tagCanceled)

/-- Sub-log of the events keyed by one identifier, in append order. -/
def eventsOf (log : List Event) (itemId : Nat) : List Event :=
  log.filter fun e => eventItemId e == itemId

/-- Created payloads of a list of events, in order. -/
def createdHits : List Event → List CreatedEv :=
  List.filterMap fun e => match e with
    | .created c => some c
    | _ => none

/-- Sold payloads of a list of events, in order. -/
def soldHits : List Event → List SoldEv :=
  List.filterMap fun e => match e with
    | .sold c => some c
    | _ => none

/-- Relisted payloads of a list of events, in order. -/
def relistedHits : List Event → List RelistedEv :=
  List.filterMap fun e => match e with
    | .relisted c => some c
    | _ => none

/-- Canceled payloads of a list of events, in order. -/
def canceledHits : List Event → List CanceledEv :=
  List.filterMap fun e => match e with
    | .canceled c => some c
    | _ => none


/-
Concrete scenario used by the witnesses: deployer `1`; seller `2` lists
asset (contract `7`, token `3`) at price `10` wei; buyer `9` purchases it at
block time `5`; the buyer relists at price `15` at time `6` and cancels at
time `7`.  `stP` is the phantom state produced by purchasing the
never-created id `5` on the empty ledger for `0` wei. -/

/-- Listing call of the sample scenario. -/
def opCreate1 : Op := Op.create 2 listingPrice 7 3 10 0 "personal" "u"

/-- Ledger holding one active listing (item 1, seller 2, price 10). -/
def stW1 : MarketState := apply (initState 1) opCreate1

/-- Purchase call of the sample scenario (buyer 9 pays 10 at time 5). -/
def opSale1 : Op := Op.sale 9 10 5 7 1

/-- Ledger after item 1 was sold to buyer 9. -/
def stW2 : MarketState := apply stW1 opSale1

/-- Relisting call of the sample scenario (owner 9, new price 15, time 6). -/
def opRelist1 : Op := Op.relist 9 listingPrice 6 1 15

/-- Ledger after buyer 9 relisted item 1 at price 15. -/
def stW3 : MarketState := apply stW2 opRelist1

/-- Cancel call of the sample scenario (seller 9, time 7). -/
def opCancel1 : Op := Op.cancel 9 7 1

/-- Ledger after the full Created–Sold–Relisted–Canceled lifecycle. -/
def stW4 : MarketState := apply stW3 opCancel1

/-- Ledger after seller 2 canceled the fresh listing of item 1. -/
def stW1c : MarketState := apply stW1 (Op.cancel 2 8 1)

/-- Phantom state: purchase of the never-created id 5 for 0 wei on the
one-listing ledger `stW1`, whose escrowed fee covers the operator payout
(the missing existence check lets it commit). -/
def stP : MarketState := apply stW1 (Op.sale 9 0 3 7 5)

/-- Created payload emitted by `opCreate1`. -/
def evC : CreatedEv :=
  { itemId := 1, nftContract := 7, tokenId := 3, seller := 2, owner := 0,
    price := 10, dataHash := 0, licenseType := "personal",
    encryptedDataUrl := "u" }

/-- Sold payload emitted by `opSale1`. -/
def evS : SoldEv :=
  { itemId := 1, nftContract := 7, tokenId := 3, seller := 2, buyer := 9,
    price := 10, timestamp := 5 }

/-- Relisted payload emitted by `opRelist1`. -/
def evR : RelistedEv :=
  { itemId := 1, nftContract := 7, tokenId := 3, seller := 9, price := 15,
    timestamp := 6 }

/-- Canceled payload emitted by `opCancel1`. -/
def evX : CanceledEv :=
  { itemId := 1, nftContract := 7, tokenId := 3, seller := 9, timestamp := 7 }

/-
Storage invariant.  Allocated slots (ids `1 .. _itemIds`) store their own id
and a positive price; slots outside that range still have the zero `itemId`
marker.  Nothing more can be said about unallocated slots: the missing
existence check in `createMarketSale` lets a caller write the `owner` (and,
chained with `relistMarketItem`, the `seller` and `price`) of an arbitrary
slot, but no entry point ever writes the `itemId` field of a slot it did
not allocate. -/

/-- Invariant of every reachable contract state. -/
structure Inv (s : MarketState) : Prop where
  alloc : ∀ i, 1 ≤ i → i ≤ s.itemIds →
    (s.items i).itemId = i ∧ 0 < (s.items i).price
  unalloc : ∀ i, s.itemIds < i ∨ i = 0 → (s.items i).itemId = 0

theorem inv_init (d : Address) : Inv (initState d) := by
  constructor
  · intro i h1 h2
    simp only [initState] at h2
    omega
  · intro i _
    rfl

theorem inv_createMarketItem {s : MarketState} {a : Address} {v : Nat}
    {c : Address} {t p d : Nat} {l u : String} {s₂ : MarketState}
    (h : createMarketItem s a v c t p d l u = .ok s₂) (hs : Inv s) : Inv s₂ := by
  unfold createMarketItem at h
  split_ifs at h with hp hv
  injection h with h
  subst h
  constructor
  · intro i h1 h2
    simp only at h2 ⊢
    by_cases hi : i = s.itemIds + 1
    · subst hi
      simp
      omega
    · have hle : i ≤ s.itemIds := by omega
      simp only [if_neg hi]
      exact hs.alloc i h1 hle
  · intro i hi
    simp only at hi ⊢
    have hne : i ≠ s.itemIds + 1 := by omega
    simp only [if_neg hne]
    exact hs.unalloc i (by omega)

theorem inv_createMarketSale {s : MarketState} {a : Address} {v now : Nat}
    {c : Address} {id : Nat} {s₂ : MarketState}
    (h : createMarketSale s a v now c id = .ok s₂) (hs : Inv s) : Inv s₂ := by
  simp only [createMarketSale] at h
  split_ifs at h with hv hb
  injection h with h
  subst h
  constructor
  · intro i h1 h2
    simp only at h2 ⊢
    by_cases hi : i = id
    · subst hi
      simpa using hs.alloc i h1 h2
    · simp only [if_neg hi]
      exact hs.alloc i h1 h2
  · intro i hi
    simp only at hi ⊢
    by_cases hie : i = id
    · subst hie
      simpa using hs.unalloc i hi
    · simp only [if_neg hie]
      exact hs.unalloc i hi

theorem inv_relistMarketItem {s : MarketState} {a : Address} {v now : Nat}
    {id p : Nat} {s₂ : MarketState}
    (h : relistMarketItem s a v now id p = .ok s₂) (hs : Inv s) : Inv s₂ := by
  simp only [relistMarketItem] at h
  split_ifs at h with h1 h2 h3 h4
  injection h with h
  subst h
  constructor
  · intro i hi1 hi2
    simp only at hi2 ⊢
    by_cases hie : i = id
    · subst hie
      have halloc := hs.alloc i hi1 hi2
      simp only [if_pos rfl]
      refine ⟨halloc.1, ?_⟩
      show 0 < p
      omega
    · simp only [if_neg hie]
      exact hs.alloc i hi1 hi2
  · intro i hi
    simp only at hi ⊢
    by_cases hie : i = id
    · subst hie
      simpa using hs.unalloc i hi
    · simp only [if_neg hie]
      exact hs.unalloc i hi

theorem inv_cancelListing {s : MarketState} {a now id : Nat} {s₂ : MarketState}
    (h : cancelListing s a now id = .ok s₂) (hs : Inv s) : Inv s₂ := by
  simp only [cancelListing] at h
  split_ifs at h with h1 h2
  injection h with h
  subst h
  constructor
  · intro i hi1 hi2
    simp only at hi2 ⊢
    by_cases hie : i = id
    · subst hie
      simpa using hs.alloc i hi1 hi2
    · simp only [if_neg hie]
      exact hs.alloc i hi1 hi2
  · intro i hi
    simp only at hi ⊢
    by_cases hie : i = id
    · subst hie
      simpa using hs.unalloc i hi
    · simp only [if_neg hie]
      exact hs.unalloc i hi

theorem inv_step {s : MarketState} {op : Op} {s₂ : MarketState}
    (h : step s op = .ok s₂) (hs : Inv s) : Inv s₂ := by
  cases op with
  | create a v c t p d l u => exact inv_createMarketItem h hs
  | sale a v now c i => exact inv_createMarketSale h hs
  | relist a v now i p => exact inv_relistMarketItem h hs
  | cancel a now i => exact inv_cancelListing h hs

theorem inv_of_reachable {s : MarketState} (h : Reachable s) : Inv s := by
  induction h with
  | init d hd => exact inv_init d
  | step s op hs hop ih =>
    unfold apply
    cases hst : step s op with
    | ok s₂ => exact inv_step hst ih
    | error e => exact ih

/-
Identifier allocation.  `_itemIds` is incremented exactly once per
successful `createMarketItem` call and touched by nothing else, so across
any call sequence the issued identifiers are the consecutive naturals
starting at 1. -/

theorem itemIds_of_create {s : MarketState} {a : Address} {v : Nat}
    {c : Address} {t p d : Nat} {l u : String} {s₂ : MarketState}
    (h : createMarketItem s a v c t p d l u = .ok s₂) :
    s₂.itemIds = s.itemIds + 1 := by
  unfold createMarketItem at h
  split_ifs at h
  injection h with h
  subst h
  rfl

theorem itemIds_of_step_create {s : MarketState} {op : Op} {s₂ : MarketState}
    (hc : op.isCreate = true) (h : step s op = .ok s₂) :
    s₂.itemIds = s.itemIds + 1 := by
  cases op with
  | create a v c t p d l u => exact itemIds_of_create h
  | sale a v now c i => simp [Op.isCreate] at hc
  | relist a v now i p => simp [Op.isCreate] at hc
  | cancel a now i => simp [Op.isCreate] at hc

theorem itemIds_of_step_other {s : MarketState} {op : Op} {s₂ : MarketState}
    (hc : op.isCreate = false) (h : step s op = .ok s₂) :
    s₂.itemIds = s.itemIds := by
  cases op with
  | create a v c t p d l u => simp [Op.isCreate] at hc
  | sale a v now c i =>
    simp only [step, createMarketSale] at h
    split_ifs at h
    injection h with h
    subst h
    rfl
  | relist a v now i p =>
    simp only [step, relistMarketItem] at h
    split_ifs at h
    injection h with h
    subst h
    rfl
  | cancel a now i =>
    simp only [step, cancelListing] at h
    split_ifs at h
    injection h with h
    subst h
    rfl

theorem issuedFrom_eq_range' (ops : List Op) :
    ∀ s : MarketState,
      issuedFrom s ops = List.range' (s.itemIds + 1) (issuedFrom s ops).length := by
  induction ops with
  | nil => intro s; rfl
  | cons op ops ih =>
    intro s
    simp only [issuedFrom]
    cases hst : step s op with
    | error e => exact ih s
    | ok s₂ =>
      cases hc : op.isCreate with
      | false =>
        simp only [Bool.false_eq_true, if_false, List.nil_append]
        rw [ih s₂, itemIds_of_step_other hc hst]
        simp [List.length_range']
      | true =>
        have hid : s₂.itemIds = s.itemIds + 1 := itemIds_of_step_create hc hst
        simp only [if_true, List.singleton_append, List.length_cons]
        rw [List.range'_succ]
        rw [ih s₂, hid]
        simp [List.length_range']

/-
Bridging lemmas for the history reconstructor: each kind query over the
whole log equals the kind extraction from the identifier's sub-log, and the
modelled stable sort fixes a list already in comparator order. -/

theorem queryCreated_eq_hits (log : List Event) (id : Nat) :
    queryCreated log id = createdHits (eventsOf log id) := by
  induction log with
  | nil => rfl
  | cons e l ih =>
    cases e with
    | created c =>
      by_cases h : c.itemId = id <;>
        simp [queryCreated, createdHits, eventsOf, eventItemId,
          List.filterMap_cons, List.filter_cons, h] <;>
        simpa [queryCreated, createdHits, eventsOf] using ih
    | sold c =>
      by_cases h : c.itemId = id <;>
        simp [queryCreated, createdHits, eventsOf, eventItemId,
          List.filterMap_cons, List.filter_cons, h] <;>
        simpa [queryCreated, createdHits, eventsOf] using ih
    | relisted c =>
      by_cases h : c.itemId = id <;>
        simp [queryCreated, createdHits, eventsOf, eventItemId,
          List.filterMap_cons, List.filter_cons, h] <;>
        simpa [queryCreated, createdHits, eventsOf] using ih
    | canceled c =>
      by_cases h : c.itemId = id <;>
        simp [queryCreated, createdHits, eventsOf, eventItemId,
          List.filterMap_cons, List.filter_cons, h] <;>
        simpa [queryCreated, createdHits, eventsOf] using ih

theorem querySold_eq_hits (log : List Event) (id : Nat) :
    querySold log id = soldHits (eventsOf log id) := by
  induction log with
  | nil => rfl
  | cons e l ih =>
    cases e with
    | created c =>
      by_cases h : c.itemId = id <;>
        simp [querySold, soldHits, eventsOf, eventItemId,
          List.filterMap_cons, List.filter_cons, h] <;>
        simpa [querySold, soldHits, eventsOf] using ih
    | sold c =>
      by_cases h : c.itemId = id <;>
        simp [querySold, soldHits, eventsOf, eventItemId,
          List.filterMap_cons, List.filter_cons, h] <;>
        simpa [querySold, soldHits, eventsOf] using ih
    | relisted c =>
      by_cases h : c.itemId = id <;>
        simp [querySold, soldHits, eventsOf, eventItemId,
          List.filterMap_cons, List.filter_cons, h] <;>
        simpa [querySold, soldHits, eventsOf] using ih
    | canceled c =>
      by_cases h : c.itemId = id <;>
        simp [querySold, soldHits, eventsOf, eventItemId,
          List.filterMap_cons, List.filter_cons, h] <;>
        simpa [querySold, soldHits, eventsOf] using ih

theorem queryRelisted_eq_hits (log : List Event) (id : Nat) :
    queryRelisted log id = relistedHits (eventsOf log id) := by
  induction log with
  | nil => rfl
  | cons e l ih =>
    cases e with
    | created c =>
      by_cases h : c.itemId = id <;>
        simp [queryRelisted, relistedHits, eventsOf, eventItemId,
          List.filterMap_cons, List.filter_cons, h] <;>
        simpa [queryRelisted, relistedHits, eventsOf] using ih
    | sold c =>
      by_cases h : c.itemId = id <;>
        simp [queryRelisted, relistedHits, eventsOf, eventItemId,
          List.filterMap_cons, List.filter_cons, h] <;>
        simpa [queryRelisted, relistedHits, eventsOf] using ih
    | relisted c =>
      by_cases h : c.itemId = id <;>
        simp [queryRelisted, relistedHits, eventsOf, eventItemId,
          List.filterMap_cons, List.filter_cons, h] <;>
        simpa [queryRelisted, relistedHits, eventsOf] using ih
    | canceled c =>
      by_cases h : c.itemId = id <;>
        simp [queryRelisted, relistedHits, eventsOf, eventItemId,
          List.filterMap_cons, List.filter_cons, h] <;>
        simpa [queryRelisted, relistedHits, eventsOf] using ih

theorem queryCanceled_eq_hits (log : List Event) (id : Nat) :
    queryCanceled log id = canceledHits (eventsOf log id) := by
  induction log with
  | nil => rfl
  | cons e l ih =>
    cases e with
    | created c =>
      by_cases h : c.itemId = id <;>
        simp [queryCanceled, canceledHits, eventsOf, eventItemId,
          List.filterMap_cons, List.filter_cons, h] <;>
        simpa [queryCanceled, canceledHits, eventsOf] using ih
    | sold c =>
      by_cases h : c.itemId = id <;>
        simp [queryCanceled, canceledHits, eventsOf, eventItemId,
          List.filterMap_cons, List.filter_cons, h] <;>
        simpa [queryCanceled, canceledHits, eventsOf] using ih
    | relisted c =>
      by_cases h : c.itemId = id <;>
        simp [queryCanceled, canceledHits, eventsOf, eventItemId,
          List.filterMap_cons, List.filter_cons, h] <;>
        simpa [queryCanceled, canceledHits, eventsOf] using ih
    | canceled c =>
      by_cases h : c.itemId = id <;>
        simp [queryCanceled, canceledHits, eventsOf, eventItemId,
          List.filterMap_cons, List.filter_cons, h] <;>
        simpa [queryCanceled, canceledHits, eventsOf] using ih

theorem insertTs_head {a b : TaggedEvent} {l : List TaggedEvent}
    (h : tsLe a b = true) : insertTs a (b :: l) = a :: b :: l := by
  simp [insertTs, h]

theorem apply_eq_of_step_ok {s : MarketState} {op : Op} {s₂ : MarketState}
    (h : step s op = .ok s₂) : apply s op = s₂ := by
  unfold apply
  rw [h]

theorem createMarketSale_err {s : MarketState} {a : Address} {v now : Nat}
    {c : Address} {id : Nat} (hv : v ≠ (s.items id).price) :
    createMarketSale s a v now c id = .error .priceMismatch := by
  simp [createMarketSale, hv]

theorem createMarketSale_ok {s : MarketState} {a : Address} {v now : Nat}
    {c : Address} {id : Nat} (hv : v = (s.items id).price)
    (hfee : listingPrice ≤ s.ethBalance) :
    createMarketSale s a v now c id = .ok
      { s with
        items := fun j => if j = id
          then { s.items id with owner := a } else s.items j,
        itemsSold := s.itemsSold + 1,
        ethBalance := s.ethBalance - listingPrice,
        balances := fun b =>
          s.balances b + (if b = (s.items id).seller then v else 0)
            + (if b = s.marketOwner then listingPrice else 0),
        log := s.log ++ [Event.sold
          { itemId := id, nftContract := c, tokenId := (s.items id).tokenId,
            seller := (s.items id).seller, buyer := a,
            price := (s.items id).price, timestamp := now }] } := by
  subst hv
  simp [createMarketSale, Nat.not_lt.mpr hfee]

theorem createMarketSale_feeErr {s : MarketState} {a : Address} {v now : Nat}
    {c : Address} {id : Nat} (hv : v = (s.items id).price)
    (hfee : s.ethBalance < listingPrice) :
    createMarketSale s a v now c id = .error .insufficientBalance := by
  subst hv
  simp [createMarketSale, hfee]

theorem cancelListing_ok {s : MarketState} {a now id : Nat}
    (hown : (s.items id).owner = 0) (hsell : (s.items id).seller = a) :
    cancelListing s a now id = .ok
      { s with
        items := fun j => if j = id
          then { s.items id with owner := (s.items id).seller }
          else s.items j,
        log := s.log ++ [Event.canceled
          { itemId := id, nftContract := (s.items id).nftContract,
            tokenId := (s.items id).tokenId, seller := a,
            timestamp := now }] } := by
  simp [cancelListing, hown, hsell]

theorem fetch_excludes_of_owner_ne {s : MarketState} (hInv : Inv s) {id : Nat}
    (hown : (s.items id).owner ≠ 0) :
    ∀ it ∈ fetchMarketItems s, it.itemId ≠ id := by
  intro it hmem heq
  rw [fetchMarketItems] at hmem
  obtain ⟨i, hi, rfl⟩ := List.mem_map.mp hmem
  have hi' := List.mem_filter.mp hi
  have hir := List.mem_range'_1.mp hi'.1
  have hid : (s.items i).itemId = i :=
    (hInv.alloc i hir.1 (by omega)).1
  have hact := hi'.2
  simp only [activeSlot, Bool.and_eq_true, beq_iff_eq] at hact
  rw [hid] at heq
  subst heq
  exact hown hact.1

theorem sortTs_of_chain : ∀ l : List TaggedEvent,
    List.Chain' (fun a b => tsLe a b = true) l → sortTs l = l
  | [] => fun _ => rfl
  | [a] => fun _ => rfl
  | a :: b :: l => fun h => by
    rw [List.chain'_cons] at h
    have ht : sortTs (b :: l) = b :: l := sortTs_of_chain (b :: l) h.2
    simp only [sortTs]
    rw [show insertTs b (sortTs l) = sortTs (b :: l) from rfl, ht,
      insertTs_head h.1]

theorem reach_stW1 : Reachable stW1 :=
  Reachable.step _ _ (Reachable.init 1 (by decide)) (by decide)

theorem reach_stW2 : Reachable stW2 :=
  Reachable.step _ _ reach_stW1 (by decide)

theorem reach_stW3 : Reachable stW3 :=
  Reachable.step _ _ reach_stW2 (by decide)

/-- C3: for an item whose sub-log is exactly one Created, one Sold, one
Relisted and one Canceled event appended in that order with non-decreasing
commit timestamps, the reconstructor returns exactly these four tagged
events in ascending timestamp order, i.e. Created, Sold, Relisted,
Canceled.  The Created event has no timestamp; the comparator coerces its
null read to 0, and the stable sort keeps the kind-query order on ties. -/
theorem claim3_history (log : List Event) (id : Nat)
    (c : CreatedEv) (sv : SoldEv) (r : RelistedEv) (x : CanceledEv)
    (h : eventsOf log id = [.created c, .sold sv, .relisted r, .canceled x])
    (h1 : sv.timestamp ≤ r.timestamp) (h2 : r.timestamp ≤ x.timestamp) :
    fetchItemHistories log id =
      [tagCreated c, tagSold sv, tagRelisted r, tagCanceled x] := by
  unfold fetchItemHistories
  rw [queryCreated_eq_hits, querySold_eq_hits, queryRelisted_eq_hits,
    queryCanceled_eq_hits, h]
  have hC : createdHits [Event.created c, Event.sold sv, Event.relisted r,
      Event.canceled x] = [c] := rfl
  have hS : soldHits [Event.created c, Event.sold sv, Event.relisted r,
      Event.canceled x] = [sv] := rfl
  have hR : relistedHits [Event.created c, Event.sold sv, Event.relisted r,
      Event.canceled x] = [r] := rfl
  have hX : canceledHits [Event.created c, Event.sold sv, Event.relisted r,
      Event.canceled x] = [x] := rfl
  rw [hC, hS, hR, hX]
  simp only [List.map_cons, List.map_nil, List.cons_append, List.nil_append]
  apply sortTs_of_chain
  refine List.chain'_cons.mpr ⟨?_, List.chain'_cons.mpr ⟨?_,
    List.chain'_cons.mpr ⟨?_, List.chain'_singleton _⟩⟩⟩
  · simp [tsLe, effTs, tagCreated, tagSold]
  · simpa [tsLe, effTs, tagSold, tagRelisted] using h1
  · simpa [tsLe, effTs, tagRelisted, tagCanceled] using h2

/-- Witness for C3 on the event log of the full concrete lifecycle. -/
theorem claim3_history_witness :
    fetchItemHistories stW4.log 1 =
      [tagCreated evC, tagSold evS, tagRelisted evR, tagCanceled evX] :=
  claim3_history stW4.log 1 evC evS evR evX
    (by set_option maxRecDepth 10000 in rfl) (by decide) (by decide)

/-- C6: in every reachable state, `fetchMarketItems` has the length the
counting pass computed, lists records in ascending `itemId` order, and
contains exactly the stored item records (nonzero `itemId`) whose owner is
the zero sentinel. -/
theorem claim6_listActive {s : MarketState} (h : Reachable s) :
    (fetchMarketItems s).length = unsoldCount s
    ∧ List.Pairwise (fun a b : MarketItem => a.itemId < b.itemId)
        (fetchMarketItems s)
    ∧ ∀ it : MarketItem, it ∈ fetchMarketItems s ↔
        it.itemId ≠ 0 ∧ it.owner = 0 ∧ s.items it.itemId = it := by
  have inv := inv_of_reachable h
  refine ⟨?_, ?_, ?_⟩
  · rw [fetchMarketItems, unsoldCount, List.length_map,
      List.countP_eq_length_filter]
  · rw [fetchMarketItems, List.pairwise_map]
    refine ((List.pairwise_lt_range' 1 s.itemIds).filter _).imp_of_mem ?_
    intro a b ha hb hlt
    have ha' := List.mem_filter.mp ha
    have hb' := List.mem_filter.mp hb
    have har := List.mem_range'_1.mp ha'.1
    have hbr := List.mem_range'_1.mp hb'.1
    rw [(inv.alloc a har.1 (by omega)).1, (inv.alloc b hbr.1 (by omega)).1]
    exact hlt
  · intro it
    constructor
    · intro hmem
      rw [fetchMarketItems] at hmem
      obtain ⟨i, hi, rfl⟩ := List.mem_map.mp hmem
      have hi' := List.mem_filter.mp hi
      have hir := List.mem_range'_1.mp hi'.1
      have hid : (s.items i).itemId = i := (inv.alloc i hir.1 (by omega)).1
      have hact := hi'.2
      simp only [activeSlot, Bool.and_eq_true, beq_iff_eq, bne_iff_ne,
        ne_eq] at hact
      refine ⟨?_, hact.1, ?_⟩
      · rw [hid]; omega
      · rw [hid]
    · rintro ⟨hid0, hown, hslot⟩
      have hrange : 1 ≤ it.itemId ∧ it.itemId ≤ s.itemIds := by
        by_cases hcase : s.itemIds < it.itemId ∨ it.itemId = 0
        · have := inv.unalloc it.itemId hcase
          rw [hslot] at this
          exact absurd this hid0
        · omega
      rw [fetchMarketItems]
      refine List.mem_map.mpr ⟨it.itemId, List.mem_filter.mpr
        ⟨List.mem_range'_1.mpr ⟨hrange.1, by omega⟩, ?_⟩, hslot⟩
      rw [hslot]
      simp [activeSlot, hown, hid0]

/-- C7 as amended: purchasing an existing item for exactly its stored price
commits provided the contract's escrow balance covers the listing-fee
payout of line 140 (each create or relist escrows one fee; each sale pays
one out, and purchases of phantom or already-sold items can drain the
escrow).  The effects are precisely: the slot's owner becomes the buyer,
the seller is credited the price and the operator the listing fee, the
contract's balance drops by the fee, every other slot is untouched, the
item leaves the active-listing view, a Sold event with seller, buyer,
price and commit timestamp is appended, and `_itemsSold` grows by one. -/
theorem claim7_purchase {s : MarketState} (h : Reachable s)
    (id buyer value now nftC : Nat) (s' : MarketState)
    (hex : (s.items id).itemId ≠ 0)
    (hv : value = (s.items id).price)
    (hb : buyer ≠ 0)
    (hfee : listingPrice ≤ s.ethBalance)
    (hs' : s' = apply s (Op.sale buyer value now nftC id)) :
    createMarketSale s buyer value now nftC id = .ok s'
    ∧ s'.items id = { s.items id with owner := buyer }
    ∧ (∀ j, j ≠ id → s'.items j = s.items j)
    ∧ (∀ a, s'.balances a = s.balances a
        + (if a = (s.items id).seller then (s.items id).price else 0)
        + (if a = s.marketOwner then listingPrice else 0))
    ∧ s'.ethBalance = s.ethBalance - listingPrice
    ∧ (∀ it ∈ fetchMarketItems s', it.itemId ≠ id)
    ∧ s'.log = s.log ++ [Event.sold
        { itemId := id, nftContract := nftC,
          tokenId := (s.items id).tokenId, seller := (s.items id).seller,
          buyer := buyer, price := (s.items id).price, timestamp := now }]
    ∧ s'.itemsSold = s.itemsSold + 1 := by
  have hok := @createMarketSale_ok s buyer value now nftC id hv hfee
  have happ := @apply_eq_of_step_ok s (Op.sale buyer value now nftC id) _
    (by simpa [step] using hok)
  have hR' : Reachable s' :=
    hs' ▸ Reachable.step s _ h (by simpa [Op.sender] using hb)
  subst hs'
  rw [happ]
  refine ⟨hok, by simp, fun j hj => by simp [hj], fun a => by simp [hv],
    rfl, ?_, rfl, rfl⟩
  exact fetch_excludes_of_owner_ne (inv_of_reachable (happ ▸ hR'))
    (by simpa using hb)

/-- Counterexample to C7: item 1 exists in the reachable ledger `stW2`
(created, then sold, so its escrowed fee was already paid out and the
contract's balance is 0), its stored price is 10, and buyer 4 pays exactly
10 — yet the purchase does not succeed: the fee payout of line 140 reverts
the call for insufficient contract balance. -/
theorem claim7_counterexample :
    (stW2.items 1).itemId = 1 ∧ (stW2.items 1).price = 10
    ∧ createMarketSale stW2 4 10 6 7 1 = .error .insufficientBalance := by
  refine ⟨rfl, rfl, ?_⟩
  set_option maxRecDepth 10000 in rfl

/-- Witness for the amended C7: the concrete purchase of item 1 by buyer 9
for 10 wei (the escrowed fee covers the payout), crediting seller 2 with
the price and deployer 1 with the listing fee and emptying the escrow. -/
theorem claim7_purchase_witness :
    createMarketSale stW1 9 10 5 7 1 = .ok stW2
    ∧ stW2.items 1 = { stW1.items 1 with owner := 9 }
    ∧ stW2.items 2 = stW1.items 2
    ∧ stW2.balances 2 = stW1.balances 2 + 10
    ∧ stW2.balances 1 = stW1.balances 1 + listingPrice
    ∧ stW2.ethBalance = stW1.ethBalance - listingPrice
    ∧ stW2.itemsSold = stW1.itemsSold + 1 := by
  obtain ⟨hok, hslot, hrest, hbal, heth, hexcl, hlog, hsold⟩ :=
    claim7_purchase reach_stW1 1 9 10 5 7 stW2 (by decide) (by decide)
      (by decide) (by decide) rfl
  refine ⟨hok, hslot, hrest 2 (by decide), ?_, ?_, heth, hsold⟩
  · simpa using hbal 2
  · simpa using hbal 1

/-- C9: cancelling an item whose owner is not the zero sentinel fails with
AlreadySold (the revert leaves the ledger unchanged); cancelling an
unsold item as its seller commits, sets the slot's owner to the caller and
removes the item from the active-listing view. -/
theorem claim9_cancel {s : MarketState} (h : Reachable s)
    (caller now id : Nat) (s' : MarketState) (hc : caller ≠ 0)
    (hs' : s' = apply s (Op.cancel caller now id)) :
    ((s.items id).owner ≠ 0 →
      cancelListing s caller now id = .error .alreadySold)
    ∧ ((s.items id).owner = 0 → (s.items id).seller = caller →
        cancelListing s caller now id = .ok s'
        ∧ (s'.items id).owner = caller
        ∧ ∀ it ∈ fetchMarketItems s', it.itemId ≠ id) := by
  constructor
  · intro hown
    simp [cancelListing, hown]
  · intro hown hsell
    have hok := @cancelListing_ok s caller now id hown hsell
    have happ := @apply_eq_of_step_ok s (Op.cancel caller now id) _
      (by simpa [step] using hok)
    have hR' : Reachable s' :=
      hs' ▸ Reachable.step s _ h (by simpa [Op.sender] using hc)
    subst hs'
    rw [happ]
    refine ⟨hok, by simp [hsell], ?_⟩
    exact fetch_excludes_of_owner_ne (inv_of_reachable (happ ▸ hR'))
      (by simp [hsell, hc])

/-- Witness for C9: cancelling the sold item 1 fails with AlreadySold,
while seller 2 cancelling the fresh listing commits and takes ownership. -/
theorem claim9_cancel_witness :
    cancelListing stW2 2 8 1 = .error .alreadySold
    ∧ cancelListing stW1 2 8 1 = .ok stW1c
    ∧ (stW1c.items 1).owner = 2 := by
  have hsold := (claim9_cancel reach_stW2 2 8 1
    (apply stW2 (Op.cancel 2 8 1)) (by decide) rfl).1 (by decide)
  obtain ⟨hok, hown, hexcl⟩ := (claim9_cancel reach_stW1 2 8 1 stW1c
    (by decide) rfl).2 (by decide) (by decide)
  exact ⟨hsold, hok, hown⟩

/-- Witness for C6 at the concrete one-listing ledger. -/
theorem claim6_listActive_witness :
    (fetchMarketItems stW1).length = unsoldCount stW1
    ∧ (stW1.items 1 ∈ fetchMarketItems stW1 ↔
        (stW1.items 1).itemId ≠ 0 ∧ (stW1.items 1).owner = 0
        ∧ stW1.items (stW1.items 1).itemId = stW1.items 1) :=
  ⟨(claim6_listActive reach_stW1).1,
    (claim6_listActive reach_stW1).2.2 (stW1.items 1)⟩


/-- C4: along any call sequence from the empty ledger, the identifiers
issued by successful create operations are exactly `1, 2, 3, ...` in order —
consecutive from 1, strictly increasing, with no reuse and no gaps,
regardless of intervening sales, relists or cancels. -/
theorem claim4_ids_consecutive (d : Address) (ops : List Op) :
    issuedFrom (initState d) ops =
      List.range' 1 (issuedFrom (initState d) ops).length :=
  issuedFrom_eq_range' ops (initState d)

/-- C5: in every reachable committed state, every stored item record (a
mapping slot holding an item, i.e. with the nonzero `itemId` marker that
`fetchMarketItems` itself uses as the existence test) has a positive
price. -/
theorem claim5_price_positive {s : MarketState} (h : Reachable s) :
    ∀ i, (s.items i).itemId ≠ 0 → 0 < (s.items i).price := by
  intro i hi
  have inv := inv_of_reachable h
  by_cases hr : 1 ≤ i ∧ i ≤ s.itemIds
  · exact (inv.alloc i hr.1 hr.2).2
  · exact absurd (inv.unalloc i (by omega)) hi

/-- Witness for C5 at the concrete one-listing ledger. -/
theorem claim5_price_positive_witness : 0 < (stW1.items 1).price :=
  claim5_price_positive reach_stW1 1 (by decide)

/-- C8: a successful `relistMarketItem` call implies the caller was the
stored owner, the new price was positive and the paid fee equalled the
listing fee; afterwards the slot's owner is the zero sentinel, its seller
is the caller and its price is the new price. -/
theorem claim8_relist {s : MarketState} {caller : Address}
    {value now id p : Nat} {s₂ : MarketState}
    (h : relistMarketItem s caller value now id p = .ok s₂) :
    caller = (s.items id).owner ∧ 0 < p ∧ value = listingPrice
    ∧ (s₂.items id).owner = 0 ∧ (s₂.items id).seller = caller
    ∧ (s₂.items id).price = p := by
  simp only [relistMarketItem] at h
  split_ifs at h with h1 h2 h3 h4
  injection h with h
  subst h
  refine ⟨(not_ne_iff.mp h1).symm, by omega, not_ne_iff.mp h3, ?_, ?_, ?_⟩
  · simp
  · simp
  · simp

/-- Witness for C8: the concrete relist of the sold item 1 by buyer 9. -/
theorem claim8_relist_witness :
    9 = (stW2.items 1).owner ∧ 0 < 15 ∧ listingPrice = listingPrice
    ∧ (stW3.items 1).owner = 0 ∧ (stW3.items 1).seller = 9
    ∧ (stW3.items 1).price = 15 :=
  @claim8_relist stW2 9 listingPrice 6 1 15 stW3
    (by set_option maxRecDepth 10000 in rfl)

/-- C10: whenever a slot's stored owner is the zero sentinel — every active
listing and every never-created identifier — `verifyOwnership` answers true
exactly for the zero address, so it cannot distinguish a listed or
nonexistent item from one owned by the zero address. -/
theorem claim10_verifyOwnership (s : MarketState) (id : Nat) (a : Address)
    (h : (s.items id).owner = 0) :
    verifyOwnership s id a = true ↔ a = 0 := by
  simp only [verifyOwnership, h, beq_iff_eq]
  exact eq_comm

/-- Witness for C10 on the listed item 1 and the nonzero address 9. -/
theorem claim10_verifyOwnership_witness :
    verifyOwnership stW1 1 9 = true ↔ (9 : Address) = 0 :=
  claim10_verifyOwnership stW1 1 9 (by decide)

/-- Counterexample to C1: on the one-listing ledger `stW1` (one fee
escrowed, so the operator payout is covered), id 5 was never allocated
(`_itemIds` is 1), yet `createMarketSale(5, 0)` does not fail at all —
there is no ItemNotFound check — and it mutates the ledger: the phantom
slot's owner becomes the buyer 9 and `_itemsSold` becomes 1. -/
theorem claim1_counterexample :
    stW1.itemIds = 1 ∧ (stW1.items 5).owner = 0
    ∧ (createMarketSale stW1 9 0 3 7 5).map
        (fun s => ((s.items 5).owner, s.itemsSold)) = .ok (9, 1) := by
  refine ⟨rfl, rfl, ?_⟩
  set_option maxRecDepth 10000 in rfl

/-- C1 as amended: the ledger has no existence check, so purchasing a
never-allocated `itemId` is never rejected with ItemNotFound — it is
validated only against the stored slot's price and the contract's ether
balance: a payment differing from the slot's price (0 for an untouched
slot) reverts with PriceMismatch; a payment equal to it reverts with the
failed fee transfer when the escrow balance is below the listing fee (as on
the empty ledger), and otherwise commits, setting the phantom slot's owner
to the buyer while all other slots stay unchanged. -/
theorem claim1_amended {s : MarketState} (h : Reachable s)
    (id sender value now nftC : Nat) (s' : MarketState)
    (hid : s.itemIds < id ∨ id = 0)
    (hs' : s' = apply s (Op.sale sender value now nftC id)) :
    (s.items id).itemId = 0
    ∧ (value ≠ (s.items id).price →
        createMarketSale s sender value now nftC id = .error .priceMismatch)
    ∧ (value = (s.items id).price → s.ethBalance < listingPrice →
        createMarketSale s sender value now nftC id
          = .error .insufficientBalance)
    ∧ (value = (s.items id).price → listingPrice ≤ s.ethBalance →
        createMarketSale s sender value now nftC id = .ok s'
        ∧ (s'.items id).owner = sender
        ∧ ∀ j, j ≠ id → s'.items j = s.items j) := by
  refine ⟨(inv_of_reachable h).unalloc id hid,
    fun hv => createMarketSale_err hv,
    fun hv hfee => createMarketSale_feeErr hv hfee,
    fun hv hfee => ?_⟩
  have hok := @createMarketSale_ok s sender value now nftC id hv hfee
  have happ := @apply_eq_of_step_ok s (Op.sale sender value now nftC id) _
    (by simpa [step] using hok)
  subst hs'
  rw [happ, hok]
  refine ⟨rfl, by simp, fun j hj => by simp [hj]⟩

/-- Witness for the amended C1: buying the never-created id 5 for 0 wei on
the one-listing ledger (whose escrowed fee covers the payout) commits and
sets the phantom slot's owner to buyer 9, leaving other slots unchanged. -/
theorem claim1_amended_witness :
    createMarketSale stW1 9 0 3 7 5 = .ok stP
    ∧ (stP.items 5).owner = 9 ∧ stP.items 2 = stW1.items 2 := by
  obtain ⟨h0, h1, h2, h3⟩ := claim1_amended reach_stW1
    5 9 0 3 7 stP (by decide) rfl
  obtain ⟨hok, hown, hrest⟩ := h3 (by decide) (by decide)
  exact ⟨hok, hown, hrest 2 (by decide)⟩

/-- Counterexample to C2: the `MarketItemCreated` event carries no
timestamp field — a successful create appends an event whose timestamp
read (the reconstructor's `e.args.timestamp`) is null. -/
theorem claim2_counterexample :
    (createMarketItem (initState 1) 2 listingPrice 7 3 10 0 "personal"
        "u").map (fun s => s.log.map eventTs?) = .ok [none] := by
  rfl

/-- C2 as amended: every successful mutating call appends exactly one
event; Sold, Relisted and Canceled events carry the environment timestamp
of the commit, but Created events carry no timestamp field at all. -/
theorem claim2_amended {s : MarketState} {op : Op} {s₂ : MarketState}
    (h : step s op = .ok s₂) :
    s₂.log.dropLast = s.log
    ∧ s₂.log.map eventTs? = s.log.map eventTs? ++ [op.ts?] := by
  cases op with
  | create a v c t p d l u =>
    simp only [step] at h
    unfold createMarketItem at h
    split_ifs at h
    injection h with h
    subst h
    constructor
    · simp
    · simp [eventTs?, Op.ts?]
  | sale a v now c i =>
    simp only [step, createMarketSale] at h
    split_ifs at h
    injection h with h
    subst h
    constructor
    · simp
    · simp [eventTs?, Op.ts?]
  | relist a v now i p =>
    simp only [step, relistMarketItem] at h
    split_ifs at h
    injection h with h
    subst h
    constructor
    · simp
    · simp [eventTs?, Op.ts?]
  | cancel a now i =>
    simp only [step, cancelListing] at h
    split_ifs at h
    injection h with h
    subst h
    constructor
    · simp
    · simp [eventTs?, Op.ts?]

/-- Witness for the amended C2 at the concrete create call: the appended
Created event has no timestamp (`none`), matching `Op.ts?` of a create. -/
theorem claim2_amended_witness :
    stW1.log.dropLast = (initState 1).log
    ∧ stW1.log.map eventTs? = (initState 1).log.map eventTs?
        ++ [opCreate1.ts?] :=
  @claim2_amended (initState 1) opCreate1 stW1 rfl


end NFTMarket
